import Mathlib

/-!
# Verification of bp-core seal data model, textual codec and tapret script builder

Shallow embedding of:
* `src/dbc/src/proof.rs` — `Method`, `MethodParseError`, `Method::from_str`;
* `src/dbc/src/tapret/tapscript.rs` — the tapret commitment script builder;
* `src/seals/src/txout/blind.rs` — `BlindSeal`, its `FromStr`/`Display`
  implementations, `ParseError`, outpoint conversions and `transmutate`.

Machine integers are modelled as `Nat` with explicit bounds (`< 2^32`,
`< 2^64`, bytes `< 256`).  Fallible operations return `Except`/`Option`.
-/

/-! ## Characters and digits -/

/-- Value of a hexadecimal digit character, accepting both cases
(the hex decoding used by `u64::from_str_radix(_, 16)` and the byte-string
hex decoder are case-insensitive). `none` on a non-hex character. -/
def hexDigitVal? (c : Char) : Option Nat :=
  if 48 ≤ c.toNat ∧ c.toNat ≤ 57 then some (c.toNat - 48)
  else if 97 ≤ c.toNat ∧ c.toNat ≤ 102 then some (c.toNat - 87)
  else if 65 ≤ c.toNat ∧ c.toNat ≤ 70 then some (c.toNat - 55)
  else none

/-- Value of a decimal digit character; `none` on a non-digit. -/
def decDigitVal? (c : Char) : Option Nat :=
  if 48 ≤ c.toNat ∧ c.toNat ≤ 57 then some (c.toNat - 48)
  else none

/-- Lowercase hexadecimal digit character for a value `< 16`
(as produced by Rust's `LowerHex` formatting). -/
def hexDigitChar (n : Nat) : Char :=
  if n < 10 then Char.ofNat (48 + n) else Char.ofNat (87 + n)

/-- Decimal digit character for a value `< 10`. -/
def decDigitChar (n : Nat) : Char := Char.ofNat (48 + n)

/-- Radix-accumulating digit parser: the core loop of integer `from_str_radix`.
Processes digits left to right, failing on the first non-digit. -/
def parseRadixCore (base : Nat) (dv : Char → Option Nat) :
    List Char → Nat → Option Nat
  | [], acc => some acc
  | c :: cs, acc =>
    match dv c with
    | some d => parseRadixCore base dv cs (acc * base + d)
    | none => none

/-- Strip a single optional leading `+` sign, as Rust's integer `from_str`
and `from_str_radix` do for unsigned types. -/
def stripPlus (cs : List Char) : List Char :=
  if cs.head? = some '+' then cs.tail else cs

/-- `u64::from_str_radix(s, 16)`: optional `+` sign, then one or more hex
digits (either case), value below `2^64`; `none` otherwise. -/
def fromStrRadix16U64 (cs : List Char) : Option Nat :=
  let ds := stripPlus cs
  if ds = [] then none
  else
    match parseRadixCore 16 hexDigitVal? ds 0 with
    | some n => if n < 2 ^ 64 then some n else none
    | none => none

/-- `u32::from_str` (used by `Vout`'s `FromStr` through its `u32` wrapper):
optional `+` sign, then one or more decimal digits, value below `2^32`. -/
def fromStrU32 (cs : List Char) : Option Nat :=
  let ds := stripPlus cs
  if ds = [] then none
  else
    match parseRadixCore 10 decDigitVal? ds 0 with
    | some n => if n < 2 ^ 32 then some n else none
    | none => none

/-- Big-endian lowercase hex digits of `n`, no leading zeros; the fuel
argument (any value `≥ n` works) makes the recursion structural. -/
def toHexCore : Nat → Nat → List Char → List Char
  | 0, _, acc => acc
  | fuel + 1, n, acc =>
    if n = 0 then acc
    else toHexCore fuel (n / 16) (hexDigitChar (n % 16) :: acc)

/-- Lowercase hex digits of `n` as produced by Rust's `{:x}`:
no leading zeros, and `"0"` for zero. -/
def toHexDigits (n : Nat) : List Char :=
  if n = 0 then ['0'] else toHexCore (n + 1) n []

/-- Big-endian decimal digits of `n`, fuel-structured like `toHexCore`. -/
def toDecCore : Nat → Nat → List Char → List Char
  | 0, _, acc => acc
  | fuel + 1, n, acc =>
    if n = 0 then acc
    else toDecCore fuel (n / 10) (decDigitChar (n % 10) :: acc)

/-- Decimal digits of `n` as produced by Rust's `Display` for integers. -/
def toDecDigits (n : Nat) : List Char :=
  if n = 0 then ['0'] else toDecCore (n + 1) n []

/-! ## Data model

`Method` is `dbc::Method` (re-exported to the seals crate as `CloseMethod`).
`Txid`, `Vout` and `Outpoint` are opaque types of the external `bc` crate;
they are modelled from the spec: a txid is a 32-byte id whose text form is
64 hex characters, a vout is a `u32` displayed/parsed as decimal, an
outpoint is a (txid, vout) pair. -/

/-- Method of DBC construction (`dbc::Method`, aka `CloseMethod`). -/
inductive Method : Type
  /-- OP_RETURN commitment in the first OP_RETURN-containing output. -/
  | OpretFirst : Method
  /-- Taproot-based OP_RETURN commitment in the first Taproot output. -/
  | TapretFirst : Method
deriving DecidableEq, Repr

/-- Canonical display string of a method (`#[display("opret1st")]` /
`#[display("tapret1st")]`). -/
def Method.display : Method → String
  | .OpretFirst => "opret1st"
  | .TapretFirst => "tapret1st"

/-- Error of `Method::from_str`; carries the offending input string. -/
structure MethodParseError : Type where
  offending : String
deriving DecidableEq, Repr

/-- Character-wise lowercasing, modelling `str::to_lowercase` on the
relevant character set (on ASCII the two agree; Rust's Unicode special
cases never produce the canonical method strings compared against). -/
def rustToLowercase (s : String) : String := ⟨s.data.map Char.toLower⟩

/-- `impl FromStr for Method` (`src/dbc/src/proof.rs`): lowercase the input
and compare against the display strings of the two variants; on failure the
error carries the original input string. -/
def method_from_str (s : String) : Except MethodParseError Method :=
  if rustToLowercase s = Method.display .OpretFirst then .ok .OpretFirst
  else if rustToLowercase s = Method.display .TapretFirst then .ok .TapretFirst
  else .error ⟨s⟩

/-- Modelled from the spec: a transaction id is an opaque 32-byte value
(`bc::Txid`, an external collaborator consumed as an opaque type). -/
structure Txid : Type where
  bytes : List Nat
deriving DecidableEq, Repr

/-- A txid value is well formed when it has exactly 32 bytes. -/
def Txid.valid (t : Txid) : Bool :=
  t.bytes.length = 32 && t.bytes.all (· < 256)

/-- Two lowercase hex characters of one byte. -/
def byteHexChars (b : Nat) : List Char :=
  [hexDigitChar (b / 16), hexDigitChar (b % 16)]

/-- Modelled from the spec: text form of a txid is 64 lowercase hex
characters (two per byte). -/
def txidToChars (t : Txid) : List Char := (t.bytes.map byteHexChars).flatten

/-- Decode a hex string two characters per byte; `none` on odd length or a
non-hex character. -/
def parseHexBytes : List Char → Option (List Nat)
  | [] => some []
  | [_] => none
  | c1 :: c2 :: rest =>
    match hexDigitVal? c1, hexDigitVal? c2, parseHexBytes rest with
    | some d1, some d2, some bs => some ((d1 * 16 + d2) :: bs)
    | _, _, _ => none

/-- Modelled from the spec: txid parsing accepts exactly 64 hex characters
and yields the 32-byte id; anything else fails. -/
def txidFromChars (cs : List Char) : Option Txid :=
  if cs.length = 64 then (parseHexBytes cs).map Txid.mk else none

/-- Modelled from the spec: an outpoint is a (transaction id, output index)
pair (`bc::Outpoint`); the vout is a `u32` value. -/
structure Outpoint : Type where
  txid : Txid
  vout : Nat
deriving DecidableEq, Repr

/-- `TxPtr`: reference to a witness transaction which is either deferred
(`WitnessTx`) or an explicit txid. -/
inductive TxPtr : Type
  /-- The witness transaction is not yet known. -/
  | WitnessTx : TxPtr
  /-- Explicit transaction id. -/
  | Txid : Txid → TxPtr
deriving DecidableEq, Repr

/-- Modelled from the spec: `SealTxid::map_to_outpoint` — a deferred
reference resolves to no outpoint, an explicit one to `(txid, vout)`. -/
def TxPtr.map_to_outpoint : TxPtr → Nat → Option Outpoint
  | .WitnessTx, _ => none
  | .Txid t, vout => some ⟨t, vout⟩

/-- Modelled from the spec: `SealTxid::txid` — the explicit txid if known. -/
def txPtrTxid : TxPtr → Option Txid
  | .WitnessTx => none
  | .Txid t => some t

/-- Revealed seal definition (`BlindSeal<Id>`): close method, (possibly
deferred) witness txid, output number and 64-bit blinding factor. -/
structure BlindSeal (Id : Type) : Type where
  method : Method
  txid : Id
  vout : Nat
  blinding : Nat
deriving DecidableEq, Repr

/-- `BlindSeal::with_blinding`: deterministic reconstruction from a known
blinding factor. -/
def BlindSeal.with_blinding {Id : Type} (method : Method) (txid : Id)
    (vout : Nat) (blinding : Nat) : BlindSeal Id :=
  ⟨method, txid, vout, blinding⟩

/-- `BlindSeal<Txid>::transmutate`: converts a settled seal into the
deferred-capable representation via `with_blinding`; the `Txid → TxPtr`
conversion (modelled from the spec) wraps the id as an explicit reference. -/
def BlindSeal.transmutate (s : BlindSeal Txid) : BlindSeal TxPtr :=
  BlindSeal.with_blinding s.method (TxPtr.Txid s.txid) s.vout s.blinding

/-- Equality of `Except` results is decidable component-wise. -/
instance {ε α : Type} [DecidableEq ε] [DecidableEq α] :
    DecidableEq (Except ε α) := fun x y =>
  match x, y with
  | .error a, .error b => decidable_of_iff (a = b) (by simp)
  | .error _, .ok _ => isFalse (by simp)
  | .ok _, .error _ => isFalse (by simp)
  | .ok a, .ok b => decidable_of_iff (a = b) (by simp)

/-- Validity of a deferred-capable seal: a well-formed txid when explicit,
vout in `u32` range, blinding in `u64` range. -/
def BlindSeal.validPtr (s : BlindSeal TxPtr) : Bool :=
  (match s.txid with
   | .WitnessTx => true
   | .Txid t => t.valid) &&
  decide (s.vout < 2 ^ 32) && decide (s.blinding < 2 ^ 64)

/-- Validity of a settled seal. -/
def BlindSeal.validTxid (s : BlindSeal Txid) : Bool :=
  s.txid.valid && decide (s.vout < 2 ^ 32) && decide (s.blinding < 2 ^ 64)

/-- Error of converting a deferred seal to an outpoint
(`WitnessVoutError`). -/
structure WitnessVoutError : Type where
deriving DecidableEq, Repr

/-- `impl TryFrom<&BlindSeal> for Outpoint`:
`reveal.txid.map_to_outpoint(reveal.vout).ok_or(WitnessVoutError)`. -/
def outpointTryFromBlindSeal (reveal : BlindSeal TxPtr) :
    Except WitnessVoutError Outpoint :=
  match reveal.txid.map_to_outpoint reveal.vout with
  | some o => .ok o
  | none => .error ⟨⟩

/-- `impl From<&BlindSeal<Txid>> for Outpoint`:
`Outpoint::new(reveal.txid, reveal.vout)`. -/
def outpointFromBlindSealTxid (reveal : BlindSeal Txid) : Outpoint :=
  ⟨reveal.txid, reveal.vout⟩

/-! ## Display (`impl Display for BlindSeal<Id>`)

The format string is `"{}:{}:{}#{:#010x}"`: method, txid-or-`~`, decimal
vout, then the blinding under Rust's `{:#010x}` — alternate (`0x`-prefixed)
lowercase hex, zero-padded to a total width of 10 characters (`0x` plus a
minimum of 8 hex digits). -/

/-- Blinding field characters under `{:#010x}`: `0x` then the hex digits of
the value, zero-padded on the left to at least 8 digits. -/
def fmtBlindingChars (b : Nat) : List Char :=
  let ds := toHexDigits b
  '0' :: 'x' :: (List.replicate (8 - ds.length) '0' ++ ds)

/-- Txid field of the display: explicit txid as 64 hex characters, deferred
as `~`. -/
def txPtrChars : TxPtr → List Char
  | .WitnessTx => ['~']
  | .Txid t => txidToChars t

/-- `impl Display for BlindSeal<TxPtr>`. -/
def blindSealDisplay (sl : BlindSeal TxPtr) : String :=
  ⟨(Method.display sl.method).data ++ ':' :: (txPtrChars sl.txid ++
    ':' :: (toDecDigits sl.vout ++ '#' :: fmtBlindingChars sl.blinding))⟩

/-- `impl Display for BlindSeal<Txid>`: same format with the txid always
explicit. -/
def blindSealTxidDisplay (sl : BlindSeal Txid) : String :=
  ⟨(Method.display sl.method).data ++ ':' :: (txidToChars sl.txid ++
    ':' :: (toDecDigits sl.vout ++ '#' :: fmtBlindingChars sl.blinding))⟩

/-! ## Parsing (`impl FromStr for BlindSeal`) -/

/-- Errors of parsing the string representation of a seal (`ParseError`;
the `Hex` variant is only a conversion adapter and is never produced by
`from_str`, so it is omitted). -/
inductive ParseError : Type
  | MethodRequired : ParseError
  | TxidRequired : ParseError
  | BlindingRequired : ParseError
  | WrongMethod : MethodParseError → ParseError
  | WrongBlinding : ParseError
  | WrongTxid : ParseError
  | WrongVout : ParseError
  | WrongStructure : ParseError
  | NonHexBlinding : ParseError
deriving DecidableEq, Repr

/-- Separator characters of the seal grammar: `s.split(&[':', '#'][..])`. -/
def isSealSep (c : Char) : Bool := c = ':' || c = '#'

/-- Rust's `str::split` on the separator set `{':', '#'}`: fields between
separators, keeping empty fields (always at least one field). -/
def splitSeps : List Char → List (List Char)
  | [] => [[]]
  | c :: cs =>
    if isSealSep c then [] :: splitSeps cs
    else
      match splitSeps cs with
      | [] => [[c]]
      | f :: fs => (c :: f) :: fs

/-- `"0x"` prefix test on the blinding field. -/
def startsWith0x : List Char → Bool
  | '0' :: 'x' :: _ => true
  | _ => false

/-- `str::trim_start_matches("0x")`: repeatedly strip a leading `0x`. -/
def trimStart0x : List Char → List Char
  | '0' :: 'x' :: rest => trimStart0x rest
  | cs => cs

/-- Blinding field parser of `from_str`:
`u64::from_str_radix(blinding.trim_start_matches("0x"), 16)`
with failure mapped to `WrongBlinding`. -/
def parseBlindingField (b : List Char) : Except ParseError Nat :=
  match fromStrRadix16U64 (trimStart0x b) with
  | some n => .ok n
  | none => .error .WrongBlinding

/-- Vout field parser of `from_str`: `vout.parse()` with failure mapped to
`WrongVout`. -/
def parseVoutField (v : List Char) : Except ParseError Nat :=
  match fromStrU32 v with
  | some n => .ok n
  | none => .error .WrongVout

/-- Txid field parser of `from_str`: `txid.parse()` with failure mapped to
`WrongTxid`. -/
def parseTxidField (t : List Char) : Except ParseError Txid :=
  match txidFromChars t with
  | some t => .ok t
  | none => .error .WrongTxid

/-- The match over the (up to five) split fields in
`impl FromStr for BlindSeal` (`src/seals/src/txout/blind.rs`), arm by arm
in source order.  Within the two success arms, the struct-literal fields
are evaluated in source order: method, blinding, (txid,) vout — so
`WrongMethod` takes precedence over `WrongBlinding`, which takes precedence
over `WrongTxid`, which takes precedence over `WrongVout`. -/
def parseFields (s : String) : List (List Char) →
    Except ParseError (BlindSeal TxPtr)
  | f1 :: rest =>
    if f1 = ['~'] ∨ f1 = [] then .error .MethodRequired
    else
      match rest with
      | f2 :: rest2 =>
        if f2 = [] then .error .TxidRequired
        else
          match rest2 with
          | [] =>
            if s.data.contains ':' then .error .BlindingRequired
            else .error .WrongStructure
          | [v, b] =>
            if startsWith0x b = false then .error .NonHexBlinding
            else if f2 = ['~'] then do
              let method ← (method_from_str ⟨f1⟩).mapError ParseError.WrongMethod
              let blinding ← parseBlindingField b
              let vout ← parseVoutField v
              pure ⟨method, TxPtr.WitnessTx, vout, blinding⟩
            else do
              let method ← (method_from_str ⟨f1⟩).mapError ParseError.WrongMethod
              let blinding ← parseBlindingField b
              let txid ← parseTxidField f2
              let vout ← parseVoutField v
              pure ⟨method, TxPtr.Txid txid, vout, blinding⟩
          | _ => .error .WrongStructure
      | [] => .error .WrongStructure
  | [] => .error .WrongStructure

/-- `impl FromStr for BlindSeal` (the deferred-capable parser). -/
def blindSealFromStr (s : String) : Except ParseError (BlindSeal TxPtr) :=
  parseFields s (splitSeps s.data)

/-- `impl FromStr for BlindSeal<Txid>` (the settled-form parser): parse as
a deferred-capable seal, then require the txid to be explicit
(`seal.txid().ok_or(ParseError::TxidRequired)`) and rebuild via
`with_blinding`. -/
def blindSealTxidFromStr (s : String) : Except ParseError (BlindSeal Txid) := do
  let sl ← blindSealFromStr s
  match txPtrTxid sl.txid with
  | none => Except.error ParseError.TxidRequired
  | some t => Except.ok (BlindSeal.with_blinding sl.method t sl.vout sl.blinding)

/-! ## Tapret commitment script builder
(`src/dbc/src/tapret/tapscript.rs`) -/

/-- Script opcode byte `OP_RESERVED`. -/
def OP_RESERVED : Nat := 0x50

/-- Script opcode byte `OP_RETURN`. -/
def OP_RETURN : Nat := 0x6a

/-- Hardcoded tapret script prefix: 30 `OP_RESERVED` bytes followed by
`OP_RETURN` and `OP_PUSHBYTES_32` (`TAPRET_SCRIPT_COMMITMENT_PREFIX`). -/
def TAPRET_SCRIPT_COMMITMENT_PREFIX : List Nat := [
  0x50, 0x50, 0x50, 0x50, 0x50, 0x50, 0x50, 0x50, 0x50, 0x50, 0x50, 0x50,
  0x50, 0x50, 0x50, 0x50, 0x50, 0x50, 0x50, 0x50, 0x50, 0x50, 0x50, 0x50,
  0x50, 0x50, 0x50, 0x50, 0x50, 0x50, 0x6a, 0x20]

/-- Modelled from the spec: `script::Builder::push_opcode` appends the
opcode byte to the script (the builder is an external `bitcoin` crate
type). -/
def builderPushOpcode (script : List Nat) (op : Nat) : List Nat :=
  script ++ [op]

/-- Modelled from the spec: `script::Builder::push_slice` appends the
minimal push encoding — for data shorter than `0x4c` bytes a single length
byte then the data; longer data uses `OP_PUSHDATA1/2/4` with a
little-endian length. -/
def builderPushSlice (script : List Nat) (data : List Nat) : List Nat :=
  if data.length < 0x4c then script ++ data.length :: data
  else if data.length < 0x100 then script ++ 0x4c :: data.length :: data
  else if data.length < 0x10000 then
    script ++ 0x4d :: data.length % 256 :: data.length / 256 :: data
  else
    script ++ 0x4e :: data.length % 256 :: data.length / 256 % 256 ::
      data.length / 65536 % 256 :: data.length / 16777216 :: data

/-- Modelled from the spec: an opaque multi-protocol commitment value whose
canonical serialization (`commit_serialize`) is its 32 bytes. -/
structure MultiCommitment : Type where
  bytes : List Nat
deriving DecidableEq, Repr

/-- Modelled from the spec: `MultiCommitment::commit_serialize` — the
32-byte canonical serialization. -/
def MultiCommitment.commit_serialize (m : MultiCommitment) : List Nat :=
  m.bytes

/-- `CommitVerify<MultiCommitment, Lnpbp6> for TapScript::commit`: push 30
`OP_RESERVED` opcodes, then `OP_RETURN`, then the commitment serialization
as a slice. -/
def tapScriptCommit (msg : MultiCommitment) : List Nat :=
  let builder := (List.range 30).foldl
    (fun b _ => builderPushOpcode b OP_RESERVED) []
  builderPushSlice (builderPushOpcode builder OP_RETURN)
    msg.commit_serialize

/-! ## Concrete example values (the repository's own test vector) -/

/-- Byte content of txid
`646ca5c1062619e2a2d60771c9dfd820551fb773e4dc8c4ed67965a8d1fae839`. -/
def txidExample : Txid := ⟨[
  0x64, 0x6c, 0xa5, 0xc1, 0x06, 0x26, 0x19, 0xe2,
  0xa2, 0xd6, 0x07, 0x71, 0xc9, 0xdf, 0xd8, 0x20,
  0x55, 0x1f, 0xb7, 0x73, 0xe4, 0xdc, 0x8c, 0x4e,
  0xd6, 0x79, 0x65, 0xa8, 0xd1, 0xfa, 0xe8, 0x39]⟩

/-- Settled example seal of the repository test suite. -/
def sealSettledExample : BlindSeal Txid :=
  ⟨.TapretFirst, txidExample, 21, 54683213134637⟩

/-- The same example seal in deferred-capable form with explicit txid. -/
def sealChainExample : BlindSeal TxPtr :=
  ⟨.TapretFirst, .Txid txidExample, 21, 54683213134637⟩

/-- The same example seal with a deferred witness transaction. -/
def sealDeferredExample : BlindSeal TxPtr :=
  ⟨.TapretFirst, .WitnessTx, 21, 54683213134637⟩

/-! ## Helper lemmas -/

theorem exceptBind_ok {ε α β : Type} (a : α) (f : α → Except ε β) :
    Except.ok a >>= f = f a := rfl

theorem exceptBind_error {ε α β : Type} (e : ε) (f : α → Except ε β) :
    (Except.error e : Except ε α) >>= f = Except.error e := rfl

theorem exceptMapError_ok {ε ε' α : Type} (f : ε → ε') (a : α) :
    Except.mapError f (Except.ok a) = Except.ok a := rfl

theorem splitSeps_ne_nil (cs : List Char) : splitSeps cs ≠ [] := by
  induction cs with
  | nil => simp [splitSeps]
  | cons c cs ih =>
    simp only [splitSeps]
    split
    · simp
    · cases h : splitSeps cs with
      | nil => exact absurd h ih
      | cons f fs => simp

theorem splitSeps_no_sep (xs : List Char)
    (h : ∀ c ∈ xs, isSealSep c = false) : splitSeps xs = [xs] := by
  induction xs with
  | nil => rfl
  | cons c cs ih =>
    have hc : isSealSep c = false := h c (by simp)
    have ih' := ih (fun c hm => h c (by simp [hm]))
    simp [splitSeps, hc, ih']

theorem splitSeps_append_sep (xs : List Char) (sep : Char) (ys : List Char)
    (h : ∀ c ∈ xs, isSealSep c = false) (hsep : isSealSep sep = true) :
    splitSeps (xs ++ sep :: ys) = xs :: splitSeps ys := by
  induction xs with
  | nil => simp [splitSeps, hsep]
  | cons c cs ih =>
    have hc : isSealSep c = false := h c (by simp)
    have ih' := ih (fun c hm => h c (by simp [hm]))
    simp [splitSeps, hc, ih']

theorem hexDigitVal?_hexDigitChar {d : Nat} (h : d < 16) :
    hexDigitVal? (hexDigitChar d) = some d := by
  interval_cases d <;> decide

theorem decDigitVal?_decDigitChar {d : Nat} (h : d < 10) :
    decDigitVal? (decDigitChar d) = some d := by
  interval_cases d <;> decide

theorem isSealSep_hexDigitChar {d : Nat} (h : d < 16) :
    isSealSep (hexDigitChar d) = false := by
  interval_cases d <;> decide

theorem isSealSep_decDigitChar {d : Nat} (h : d < 10) :
    isSealSep (decDigitChar d) = false := by
  interval_cases d <;> decide

theorem hexDigitChar_ne_x {d : Nat} (h : d < 16) : hexDigitChar d ≠ 'x' := by
  interval_cases d <;> decide

theorem hexDigitChar_ne_plus {d : Nat} (h : d < 16) :
    hexDigitChar d ≠ '+' := by
  interval_cases d <;> decide

theorem decDigitChar_ne_plus {d : Nat} (h : d < 10) :
    decDigitChar d ≠ '+' := by
  interval_cases d <;> decide

theorem stripPlus_of_head_ne {cs : List Char}
    (h : ∀ c ∈ cs, c ≠ '+') : stripPlus cs = cs := by
  cases cs with
  | nil => rfl
  | cons c cs =>
    have : c ≠ '+' := h c (by simp)
    simp [stripPlus, this]

theorem trimStart0x_no_x {cs : List Char} (h : 'x' ∉ cs) :
    trimStart0x cs = cs := by
  rw [trimStart0x.eq_def]
  split
  · rename_i rest
    exact absurd (by simp) h
  · rfl

theorem parseRadixCore_append (base : Nat) (dv : Char → Option Nat)
    (xs ys : List Char) (acc : Nat) :
    parseRadixCore base dv (xs ++ ys) acc =
      match parseRadixCore base dv xs acc with
      | some a => parseRadixCore base dv ys a
      | none => none := by
  induction xs generalizing acc with
  | nil => simp [parseRadixCore]
  | cons c cs ih =>
    simp only [List.cons_append, parseRadixCore]
    cases dv c with
    | none => simp
    | some d => simp [ih]

theorem toHexCore_acc_eq (fuel : Nat) : ∀ (n : Nat) (acc : List Char),
    toHexCore fuel n acc = toHexCore fuel n [] ++ acc := by
  induction fuel with
  | zero => intro n acc; simp [toHexCore]
  | succ fuel ih =>
    intro n acc
    by_cases hn : n = 0
    · simp [toHexCore, hn]
    · simp only [toHexCore, if_neg hn]
      rw [ih (n / 16) (hexDigitChar (n % 16) :: acc),
        ih (n / 16) [hexDigitChar (n % 16)]]
      simp

theorem toDecCore_acc_eq (fuel : Nat) : ∀ (n : Nat) (acc : List Char),
    toDecCore fuel n acc = toDecCore fuel n [] ++ acc := by
  induction fuel with
  | zero => intro n acc; simp [toDecCore]
  | succ fuel ih =>
    intro n acc
    by_cases hn : n = 0
    · simp [toDecCore, hn]
    · simp only [toDecCore, if_neg hn]
      rw [ih (n / 10) (decDigitChar (n % 10) :: acc),
        ih (n / 10) [decDigitChar (n % 10)]]
      simp

theorem parseRadixCore_toHexCore (fuel : Nat) : ∀ (n acc : Nat), n ≤ fuel →
    parseRadixCore 16 hexDigitVal? (toHexCore fuel n []) acc =
      some (acc * 16 ^ (toHexCore fuel n []).length + n) := by
  induction fuel with
  | zero =>
    intro n acc hn
    interval_cases n
    simp [toHexCore, parseRadixCore]
  | succ fuel ih =>
    intro n acc hn
    by_cases h0 : n = 0
    · simp [toHexCore, h0, parseRadixCore]
    · have hdiv : n / 16 ≤ fuel := by omega
      simp only [toHexCore, if_neg h0]
      rw [toHexCore_acc_eq, parseRadixCore_append, ih (n / 16) acc hdiv]
      simp only [parseRadixCore, hexDigitVal?_hexDigitChar (Nat.mod_lt n (by omega))]
      rw [List.length_append]
      simp only [List.length_singleton, parseRadixCore]
      congr 1
      have : 16 ^ ((toHexCore fuel (n / 16) []).length + 1) =
          16 ^ (toHexCore fuel (n / 16) []).length * 16 := by ring
      rw [this]
      have hmod := Nat.div_add_mod n 16
      ring_nf
      omega

theorem parseRadixCore_toDecCore (fuel : Nat) : ∀ (n acc : Nat), n ≤ fuel →
    parseRadixCore 10 decDigitVal? (toDecCore fuel n []) acc =
      some (acc * 10 ^ (toDecCore fuel n []).length + n) := by
  induction fuel with
  | zero =>
    intro n acc hn
    interval_cases n
    simp [toDecCore, parseRadixCore]
  | succ fuel ih =>
    intro n acc hn
    by_cases h0 : n = 0
    · simp [toDecCore, h0, parseRadixCore]
    · have hdiv : n / 10 ≤ fuel := by omega
      simp only [toDecCore, if_neg h0]
      rw [toDecCore_acc_eq, parseRadixCore_append, ih (n / 10) acc hdiv]
      simp only [parseRadixCore, decDigitVal?_decDigitChar (Nat.mod_lt n (by omega))]
      rw [List.length_append]
      simp only [List.length_singleton, parseRadixCore]
      congr 1
      have : 10 ^ ((toDecCore fuel (n / 10) []).length + 1) =
          10 ^ (toDecCore fuel (n / 10) []).length * 10 := by ring
      rw [this]
      have hmod := Nat.div_add_mod n 10
      ring_nf
      omega

theorem parseRadixCore_toHexDigits (n : Nat) :
    parseRadixCore 16 hexDigitVal? (toHexDigits n) 0 = some n := by
  by_cases h0 : n = 0
  · simp [toHexDigits, h0, parseRadixCore, hexDigitVal?]
  · simp only [toHexDigits, if_neg h0]
    rw [parseRadixCore_toHexCore (n + 1) n 0 (by omega)]
    simp

theorem parseRadixCore_toDecDigits (n : Nat) :
    parseRadixCore 10 decDigitVal? (toDecDigits n) 0 = some n := by
  by_cases h0 : n = 0
  · simp [toDecDigits, h0, parseRadixCore, decDigitVal?]
  · simp only [toDecDigits, if_neg h0]
    rw [parseRadixCore_toDecCore (n + 1) n 0 (by omega)]
    simp

theorem parseRadixCore_zeros_hex (k : Nat) :
    parseRadixCore 16 hexDigitVal? (List.replicate k '0') 0 = some 0 := by
  induction k with
  | zero => rfl
  | succ k ih => simpa [List.replicate_succ, parseRadixCore, hexDigitVal?] using ih

theorem mem_toHexCore (fuel : Nat) : ∀ (n : Nat) (acc : List Char),
    ∀ c ∈ toHexCore fuel n acc, (∃ d, d < 16 ∧ c = hexDigitChar d) ∨ c ∈ acc := by
  induction fuel with
  | zero => intro n acc c hc; exact Or.inr hc
  | succ fuel ih =>
    intro n acc c hc
    by_cases h0 : n = 0
    · simp only [toHexCore, if_pos h0] at hc
      exact Or.inr hc
    · simp only [toHexCore, if_neg h0] at hc
      rcases ih (n / 16) _ c hc with h | h
      · exact Or.inl h
      · rcases List.mem_cons.mp h with h | h
        · exact Or.inl ⟨n % 16, Nat.mod_lt n (by omega), h⟩
        · exact Or.inr h

theorem mem_toDecCore (fuel : Nat) : ∀ (n : Nat) (acc : List Char),
    ∀ c ∈ toDecCore fuel n acc, (∃ d, d < 10 ∧ c = decDigitChar d) ∨ c ∈ acc := by
  induction fuel with
  | zero => intro n acc c hc; exact Or.inr hc
  | succ fuel ih =>
    intro n acc c hc
    by_cases h0 : n = 0
    · simp only [toDecCore, if_pos h0] at hc
      exact Or.inr hc
    · simp only [toDecCore, if_neg h0] at hc
      rcases ih (n / 10) _ c hc with h | h
      · exact Or.inl h
      · rcases List.mem_cons.mp h with h | h
        · exact Or.inl ⟨n % 10, Nat.mod_lt n (by omega), h⟩
        · exact Or.inr h

theorem mem_toHexDigits (n : Nat) :
    ∀ c ∈ toHexDigits n, ∃ d, d < 16 ∧ c = hexDigitChar d := by
  intro c hc
  by_cases h0 : n = 0
  · simp only [toHexDigits, if_pos h0, List.mem_singleton] at hc
    exact ⟨0, by omega, by simp [hc, hexDigitChar, decDigitChar]⟩
  · simp only [toHexDigits, if_neg h0] at hc
    rcases mem_toHexCore (n + 1) n [] c hc with h | h
    · exact h
    · simp at h

theorem mem_toDecDigits (n : Nat) :
    ∀ c ∈ toDecDigits n, ∃ d, d < 10 ∧ c = decDigitChar d := by
  intro c hc
  by_cases h0 : n = 0
  · simp only [toDecDigits, if_pos h0, List.mem_singleton] at hc
    exact ⟨0, by omega, by simp [hc, decDigitChar]⟩
  · simp only [toDecDigits, if_neg h0] at hc
    rcases mem_toDecCore (n + 1) n [] c hc with h | h
    · exact h
    · simp at h

theorem toHexDigits_ne_nil (n : Nat) : toHexDigits n ≠ [] := by
  by_cases h0 : n = 0
  · simp [toHexDigits, h0]
  · simp only [toHexDigits, if_neg h0]
    have step : toHexCore (n + 1) n [] =
        toHexCore n (n / 16) [] ++ [hexDigitChar (n % 16)] := by
      conv_lhs => rw [toHexCore]
      rw [if_neg h0, toHexCore_acc_eq]
    rw [step]
    simp

theorem toDecDigits_ne_nil (n : Nat) : toDecDigits n ≠ [] := by
  by_cases h0 : n = 0
  · simp [toDecDigits, h0]
  · simp only [toDecDigits, if_neg h0]
    have step : toDecCore (n + 1) n [] =
        toDecCore n (n / 10) [] ++ [decDigitChar (n % 10)] := by
      conv_lhs => rw [toDecCore]
      rw [if_neg h0, toDecCore_acc_eq]
    rw [step]
    simp

theorem toHexCore_length_le (fuel : Nat) : ∀ (n k : Nat), n < 16 ^ k →
    (toHexCore fuel n []).length ≤ k := by
  induction fuel with
  | zero => intro n k _; simp [toHexCore]
  | succ fuel ih =>
    intro n k hn
    by_cases h0 : n = 0
    · simp [toHexCore, h0]
    · have hk : k ≠ 0 := by
        intro hk; rw [hk] at hn; simp at hn; omega
      simp only [toHexCore, if_neg h0]
      rw [toHexCore_acc_eq, List.length_append]
      have h16 : 16 ^ k = 16 ^ (k - 1) * 16 := by
        rw [← pow_succ]; congr 1; omega
      have hdiv : n / 16 < 16 ^ (k - 1) := by
        apply Nat.div_lt_of_lt_mul
        omega
      have := ih (n / 16) (k - 1) hdiv
      simp only [List.length_singleton]
      omega

theorem zero_char_eq_hexDigitChar : '0' = hexDigitChar 0 := by decide

theorem mem_fmtBlindingPad (b : Nat) :
    ∀ c ∈ List.replicate (8 - (toHexDigits b).length) '0' ++ toHexDigits b,
      ∃ d, d < 16 ∧ c = hexDigitChar d := by
  intro c hc
  rcases List.mem_append.mp hc with h | h
  · rw [List.eq_of_mem_replicate h]
    exact ⟨0, by omega, zero_char_eq_hexDigitChar⟩
  · exact mem_toHexDigits b c h

theorem parseRadixCore_pad_toHexDigits (k b : Nat) :
    parseRadixCore 16 hexDigitVal? (List.replicate k '0' ++ toHexDigits b) 0 =
      some b := by
  rw [parseRadixCore_append, parseRadixCore_zeros_hex]
  exact parseRadixCore_toHexDigits b

theorem trimStart0x_fmtBlindingChars (b : Nat) :
    trimStart0x (fmtBlindingChars b) =
      List.replicate (8 - (toHexDigits b).length) '0' ++ toHexDigits b := by
  have h1 : trimStart0x (fmtBlindingChars b) =
      trimStart0x (List.replicate (8 - (toHexDigits b).length) '0' ++
        toHexDigits b) := rfl
  rw [h1, trimStart0x_no_x]
  intro hx
  rcases mem_fmtBlindingPad b 'x' hx with ⟨d, hd, hc⟩
  exact hexDigitChar_ne_x hd hc.symm

theorem fromStrRadix16U64_fmtBlinding {b : Nat} (h : b < 2 ^ 64) :
    fromStrRadix16U64 (trimStart0x (fmtBlindingChars b)) = some b := by
  rw [trimStart0x_fmtBlindingChars]
  have hplus : stripPlus (List.replicate (8 - (toHexDigits b).length) '0' ++
      toHexDigits b) =
      List.replicate (8 - (toHexDigits b).length) '0' ++ toHexDigits b := by
    apply stripPlus_of_head_ne
    intro c hc
    rcases mem_fmtBlindingPad b c hc with ⟨d, hd, hcd⟩
    rw [hcd]
    exact hexDigitChar_ne_plus hd
  have hne : List.replicate (8 - (toHexDigits b).length) '0' ++
      toHexDigits b ≠ [] := by
    simp [toHexDigits_ne_nil b]
  simp only [fromStrRadix16U64, hplus, if_neg hne,
    parseRadixCore_pad_toHexDigits, if_pos h]

theorem parseRadixCore_zeros_dec (k : Nat) :
    parseRadixCore 10 decDigitVal? (List.replicate k '0') 0 = some 0 := by
  induction k with
  | zero => rfl
  | succ k ih => simpa [List.replicate_succ, parseRadixCore, decDigitVal?] using ih

theorem fromStrU32_toDecDigits {v : Nat} (h : v < 2 ^ 32) :
    fromStrU32 (toDecDigits v) = some v := by
  have hplus : stripPlus (toDecDigits v) = toDecDigits v := by
    apply stripPlus_of_head_ne
    intro c hc
    rcases mem_toDecDigits v c hc with ⟨d, hd, hcd⟩
    rw [hcd]
    exact decDigitChar_ne_plus hd
  simp only [fromStrU32, hplus, if_neg (toDecDigits_ne_nil v),
    parseRadixCore_toDecDigits, if_pos h]

theorem mem_byteHexChars {b : Nat} (h : b < 256) :
    ∀ c ∈ byteHexChars b, ∃ d, d < 16 ∧ c = hexDigitChar d := by
  intro c hc
  rcases List.mem_pair.mp hc with hc | hc
  · exact ⟨b / 16, by omega, hc⟩
  · exact ⟨b % 16, by omega, hc⟩

theorem mem_txidToChars {t : Txid} (h : t.valid = true) :
    ∀ c ∈ txidToChars t, ∃ d, d < 16 ∧ c = hexDigitChar d := by
  intro c hc
  simp only [txidToChars, List.mem_flatten, List.mem_map] at hc
  rcases hc with ⟨l, ⟨b, hb, hl⟩, hcl⟩
  have hb256 : b < 256 := by
    simp only [Txid.valid, Bool.and_eq_true, List.all_eq_true,
      decide_eq_true_eq] at h
    exact h.2 b hb
  exact mem_byteHexChars hb256 c (hl ▸ hcl)

theorem txidToChars_length {t : Txid} (h : t.valid = true) :
    (txidToChars t).length = 64 := by
  have hlen : t.bytes.length = 32 := by
    simp only [Txid.valid, Bool.and_eq_true, decide_eq_true_eq] at h
    exact h.1
  have : ∀ bs : List Nat, ((bs.map byteHexChars).flatten).length =
      2 * bs.length := by
    intro bs
    induction bs with
    | nil => rfl
    | cons b bs ih =>
      have hbl : (byteHexChars b).length = 2 := rfl
      simp only [List.map_cons, List.flatten_cons, List.length_append, hbl, ih,
        List.length_cons]
      omega
  rw [txidToChars, this, hlen]

theorem parseHexBytes_roundtrip (bs : List Nat) (h : ∀ b ∈ bs, b < 256) :
    parseHexBytes ((bs.map byteHexChars).flatten) = some bs := by
  induction bs with
  | nil => rfl
  | cons b bs ih =>
    have hb : b < 256 := h b (by simp)
    have ih' := ih (fun x hx => h x (by simp [hx]))
    have hflat : ((b :: bs).map byteHexChars).flatten =
        hexDigitChar (b / 16) :: hexDigitChar (b % 16) ::
          (bs.map byteHexChars).flatten := by
      simp [byteHexChars]
    rw [hflat]
    simp only [parseHexBytes, hexDigitVal?_hexDigitChar (show b / 16 < 16 by omega),
      hexDigitVal?_hexDigitChar (show b % 16 < 16 by omega), ih']
    congr 1
    have : b / 16 * 16 + b % 16 = b := by omega
    rw [this]

theorem txidFromChars_roundtrip {t : Txid} (h : t.valid = true) :
    txidFromChars (txidToChars t) = some t := by
  have hb : ∀ b ∈ t.bytes, b < 256 := by
    simp only [Txid.valid, Bool.and_eq_true, List.all_eq_true,
      decide_eq_true_eq] at h
    exact h.2
  have hlen : (txidToChars t).length = 64 := txidToChars_length h
  rw [txidFromChars, if_pos hlen, txidToChars,
    parseHexBytes_roundtrip t.bytes hb]
  rfl

theorem method_from_str_display (m : Method) :
    method_from_str (Method.display m) = .ok m := by
  cases m <;> decide

theorem method_display_no_sep (m : Method) :
    ∀ c ∈ (Method.display m).data, isSealSep c = false := by
  cases m <;> decide

theorem method_display_ne_tilde (m : Method) :
    (Method.display m).data ≠ ['~'] ∧ (Method.display m).data ≠ [] := by
  cases m <;> exact ⟨by decide, by decide⟩

theorem fmtBlindingChars_no_sep (b : Nat) :
    ∀ c ∈ fmtBlindingChars b, isSealSep c = false := by
  intro c hc
  rcases List.mem_cons.mp hc with hc | hc
  · rw [hc]; decide
  · rcases List.mem_cons.mp hc with hc | hc
    · rw [hc]; decide
    · rcases mem_fmtBlindingPad b c hc with ⟨d, hd, hcd⟩
      rw [hcd]
      exact isSealSep_hexDigitChar hd

theorem toDecDigits_no_sep (v : Nat) :
    ∀ c ∈ toDecDigits v, isSealSep c = false := by
  intro c hc
  rcases mem_toDecDigits v c hc with ⟨d, hd, hcd⟩
  rw [hcd]
  exact isSealSep_decDigitChar hd

theorem txPtrChars_no_sep {p : TxPtr}
    (h : (match p with | .WitnessTx => true | .Txid t => t.valid) = true) :
    ∀ c ∈ txPtrChars p, isSealSep c = false := by
  cases p with
  | WitnessTx => intro c hc; simp only [txPtrChars, List.mem_singleton] at hc; rw [hc]; decide
  | Txid t =>
    intro c hc
    rcases mem_txidToChars h c hc with ⟨d, hd, hcd⟩
    rw [hcd]
    exact isSealSep_hexDigitChar hd

theorem txPtrChars_ne_nil {p : TxPtr}
    (h : (match p with | .WitnessTx => true | .Txid t => t.valid) = true) :
    txPtrChars p ≠ [] := by
  cases p with
  | WitnessTx => simp [txPtrChars]
  | Txid t =>
    intro hc
    have := txidToChars_length h
    rw [txPtrChars] at hc
    rw [hc] at this
    simp at this

theorem startsWith0x_fmtBlindingChars (b : Nat) :
    startsWith0x (fmtBlindingChars b) = true := rfl

theorem splitSeps_four_fields (m t v b : List Char) (c1 c2 c3 : Char)
    (hm : ∀ c ∈ m, isSealSep c = false) (ht : ∀ c ∈ t, isSealSep c = false)
    (hv : ∀ c ∈ v, isSealSep c = false) (hb : ∀ c ∈ b, isSealSep c = false)
    (h1 : isSealSep c1 = true) (h2 : isSealSep c2 = true)
    (h3 : isSealSep c3 = true) :
    splitSeps (m ++ c1 :: (t ++ c2 :: (v ++ c3 :: b))) = [m, t, v, b] := by
  rw [splitSeps_append_sep m c1 _ hm h1,
    splitSeps_append_sep t c2 _ ht h2,
    splitSeps_append_sep v c3 _ hv h3,
    splitSeps_no_sep b hb]

/-- Core round-trip: joining the four display fields of any valid seal with
any choice of the two separator characters parses back to the seal. -/
theorem parseFields_join (sl : BlindSeal TxPtr) (h : sl.validPtr = true)
    (s : String) (c1 c2 c3 : Char) (h1 : isSealSep c1 = true)
    (h2 : isSealSep c2 = true) (h3 : isSealSep c3 = true) :
    parseFields s (splitSeps ((Method.display sl.method).data ++
      c1 :: (txPtrChars sl.txid ++ c2 :: (toDecDigits sl.vout ++
        c3 :: fmtBlindingChars sl.blinding)))) = .ok sl := by
  obtain ⟨method, txid, vout, blinding⟩ := sl
  simp only [BlindSeal.validPtr, Bool.and_eq_true, decide_eq_true_eq] at h
  obtain ⟨⟨hptr, hvout⟩, hblind⟩ := h
  have hsplit := splitSeps_four_fields (Method.display method).data
    (txPtrChars txid) (toDecDigits vout) (fmtBlindingChars blinding) c1 c2 c3
    (method_display_no_sep method) (txPtrChars_no_sep hptr)
    (toDecDigits_no_sep vout) (fmtBlindingChars_no_sep blinding) h1 h2 h3
  rw [hsplit]
  have hm := method_display_ne_tilde method
  simp only [parseFields, if_neg (not_or.mpr ⟨hm.1, hm.2⟩),
    if_neg (txPtrChars_ne_nil hptr), startsWith0x_fmtBlindingChars,
    Bool.true_eq_false, if_false]
  cases txid with
  | WitnessTx =>
    rw [if_pos (show txPtrChars TxPtr.WitnessTx = ['~'] from rfl)]
    show ((method_from_str (Method.display method)).mapError
        ParseError.WrongMethod >>= fun method => _) = _
    rw [method_from_str_display method, exceptMapError_ok, exceptBind_ok]
    show (parseBlindingField (fmtBlindingChars blinding) >>=
        fun blinding => _) = _
    rw [parseBlindingField, fromStrRadix16U64_fmtBlinding hblind,
      exceptBind_ok]
    show (parseVoutField (toDecDigits vout) >>= fun vout => _) = _
    rw [parseVoutField, fromStrU32_toDecDigits hvout, exceptBind_ok]
    rfl
  | Txid tx =>
    have htl : (txPtrChars (TxPtr.Txid tx)).length = 64 := txidToChars_length hptr
    have hne : txPtrChars (TxPtr.Txid tx) ≠ ['~'] := by
      intro he
      rw [he] at htl
      simp at htl
    rw [if_neg hne]
    show ((method_from_str (Method.display method)).mapError
        ParseError.WrongMethod >>= fun method => _) = _
    rw [method_from_str_display method, exceptMapError_ok, exceptBind_ok]
    show (parseBlindingField (fmtBlindingChars blinding) >>=
        fun blinding => _) = _
    rw [parseBlindingField, fromStrRadix16U64_fmtBlinding hblind,
      exceptBind_ok]
    show (parseTxidField (txPtrChars (TxPtr.Txid tx)) >>= fun txid => _) = _
    rw [parseTxidField]
    rw [show txPtrChars (TxPtr.Txid tx) = txidToChars tx from rfl,
      txidFromChars_roundtrip hptr, exceptBind_ok]
    show (parseVoutField (toDecDigits vout) >>= fun vout => _) = _
    rw [parseVoutField, fromStrU32_toDecDigits hvout, exceptBind_ok]
    rfl

theorem toHexDigits_length_le16 {n : Nat} (h : n < 2 ^ 64) :
    (toHexDigits n).length ≤ 16 := by
  by_cases h0 : n = 0
  · simp [toHexDigits, h0]
  · simp only [toHexDigits, if_neg h0]
    exact toHexCore_length_le (n + 1) n 16 (by norm_num at h ⊢; omega)

/-! ## Claim theorems -/

/-- C1: for every valid seal (method, deferred-or-explicit txid, `u32` vout,
64-bit blinding), parsing the display string yields back exactly the seal;
and formatting the parse result of any format-produced string yields that
string again. -/
theorem seal_parse_format_roundtrip (sl : BlindSeal TxPtr)
    (h : sl.validPtr = true) :
    blindSealFromStr (blindSealDisplay sl) = Except.ok sl ∧
    ∀ sl', blindSealFromStr (blindSealDisplay sl) = Except.ok sl' →
      blindSealDisplay sl' = blindSealDisplay sl := by
  have hdata : (blindSealDisplay sl).data = (Method.display sl.method).data ++
      ':' :: (txPtrChars sl.txid ++ ':' :: (toDecDigits sl.vout ++
        '#' :: fmtBlindingChars sl.blinding)) := rfl
  have hmain : blindSealFromStr (blindSealDisplay sl) = Except.ok sl := by
    rw [blindSealFromStr, hdata]
    exact parseFields_join sl h (blindSealDisplay sl) ':' ':' '#'
      (by decide) (by decide) (by decide)
  refine ⟨hmain, fun sl' h' => ?_⟩
  rw [hmain] at h'
  rw [Except.ok.injEq] at h'
  rw [h']

/-- C1 witness: the round trip at the repository's own test seal. -/
theorem seal_parse_format_roundtrip_witness :
    blindSealFromStr (blindSealDisplay sealChainExample) =
      Except.ok sealChainExample ∧
    ∀ sl', blindSealFromStr (blindSealDisplay sealChainExample) =
      Except.ok sl' → blindSealDisplay sl' = blindSealDisplay sealChainExample :=
  seal_parse_format_roundtrip sealChainExample (by decide)

/-- C9: the parser splits on `:` and `#` interchangeably — joining the four
display fields of a valid seal with any combination of the two separator
characters parses to the same seal as the canonical display string. -/
theorem seal_separators_interchangeable (sl : BlindSeal TxPtr)
    (h : sl.validPtr = true) (c1 c2 c3 : Char) (h1 : isSealSep c1 = true)
    (h2 : isSealSep c2 = true) (h3 : isSealSep c3 = true) :
    blindSealFromStr ⟨(Method.display sl.method).data ++
      c1 :: (txPtrChars sl.txid ++ c2 :: (toDecDigits sl.vout ++
        c3 :: fmtBlindingChars sl.blinding))⟩ = Except.ok sl ∧
    blindSealFromStr ⟨(Method.display sl.method).data ++
      c1 :: (txPtrChars sl.txid ++ c2 :: (toDecDigits sl.vout ++
        c3 :: fmtBlindingChars sl.blinding))⟩ =
      blindSealFromStr (blindSealDisplay sl) := by
  have hvar : blindSealFromStr ⟨(Method.display sl.method).data ++
      c1 :: (txPtrChars sl.txid ++ c2 :: (toDecDigits sl.vout ++
        c3 :: fmtBlindingChars sl.blinding))⟩ = Except.ok sl := by
    rw [blindSealFromStr]
    exact parseFields_join sl h _ c1 c2 c3 h1 h2 h3
  have hcan : blindSealFromStr (blindSealDisplay sl) = Except.ok sl := by
    have hdata : (blindSealDisplay sl).data =
        (Method.display sl.method).data ++ ':' :: (txPtrChars sl.txid ++
          ':' :: (toDecDigits sl.vout ++ '#' :: fmtBlindingChars sl.blinding)) := rfl
    rw [blindSealFromStr, hdata]
    exact parseFields_join sl h (blindSealDisplay sl) ':' ':' '#'
      (by decide) (by decide) (by decide)
  exact ⟨hvar, hvar.trans hcan.symm⟩

/-- C9 witness: the all-`#` variant of the test seal string parses to the
same seal as the canonical form. -/
theorem seal_separators_interchangeable_witness :
    blindSealFromStr ⟨(Method.display sealChainExample.method).data ++
      '#' :: (txPtrChars sealChainExample.txid ++
        '#' :: (toDecDigits sealChainExample.vout ++
          '#' :: fmtBlindingChars sealChainExample.blinding))⟩ =
      Except.ok sealChainExample ∧
    blindSealFromStr ⟨(Method.display sealChainExample.method).data ++
      '#' :: (txPtrChars sealChainExample.txid ++
        '#' :: (toDecDigits sealChainExample.vout ++
          '#' :: fmtBlindingChars sealChainExample.blinding))⟩ =
      blindSealFromStr (blindSealDisplay sealChainExample) :=
  seal_separators_interchangeable sealChainExample (by decide) '#' '#' '#'
    (by decide) (by decide) (by decide)

/-- C2 counterexample: the valid seal with blinding factor 5 displays with
blinding field `0x00000005` — `0x` followed by 8 hex digits, so the display
is not of the form (prefix ++ `0x` ++ exactly 12 digits). -/
theorem blinding_width_counterexample :
    (⟨Method.TapretFirst, TxPtr.WitnessTx, 1, 5⟩ : BlindSeal TxPtr).validPtr
      = true ∧
    blindSealDisplay ⟨Method.TapretFirst, TxPtr.WitnessTx, 1, 5⟩ =
      "tapret1st:~:1#0x00000005" ∧
    ¬ ∃ ds : List Char, ds.length = 12 ∧
      blindSealDisplay ⟨Method.TapretFirst, TxPtr.WitnessTx, 1, 5⟩ =
        ⟨"tapret1st:~:1#0x".data ++ ds⟩ := by
  refine ⟨by decide, by decide, ?_⟩
  rintro ⟨ds, hlen, heq⟩
  have hdisp : blindSealDisplay ⟨Method.TapretFirst, TxPtr.WitnessTx, 1, 5⟩ =
      "tapret1st:~:1#0x00000005" := by decide
  rw [hdisp] at heq
  have hdata : "tapret1st:~:1#0x00000005".data =
      "tapret1st:~:1#0x".data ++ ds := congrArg String.data heq
  have hl := congrArg List.length hdata
  rw [List.length_append, hlen] at hl
  simp at hl

/-- C2 amended: for every valid seal the display's fourth (blinding) field
is `0x` followed by lowercase hex digits of the blinding value zero-padded
on the left to a minimum of 8 digits (Rust's `{:#010x}`): the digit count
is `max 8 L` where `L` is the number of significant hex digits, hence
between 8 and 16 — a fixed 12-digit width is not guaranteed. -/
theorem blinding_field_format (sl : BlindSeal TxPtr)
    (h : sl.validPtr = true) :
    (splitSeps (blindSealDisplay sl).data).get? 3 = some ('0' :: 'x' ::
      (List.replicate (8 - (toHexDigits sl.blinding).length) '0' ++
        toHexDigits sl.blinding)) ∧
    (∀ c ∈ List.replicate (8 - (toHexDigits sl.blinding).length) '0' ++
        toHexDigits sl.blinding, ∃ d, d < 16 ∧ c = hexDigitChar d) ∧
    (List.replicate (8 - (toHexDigits sl.blinding).length) '0' ++
        toHexDigits sl.blinding).length =
      max 8 (toHexDigits sl.blinding).length ∧
    8 ≤ (List.replicate (8 - (toHexDigits sl.blinding).length) '0' ++
        toHexDigits sl.blinding).length ∧
    (List.replicate (8 - (toHexDigits sl.blinding).length) '0' ++
        toHexDigits sl.blinding).length ≤ 16 := by
  simp only [BlindSeal.validPtr, Bool.and_eq_true, decide_eq_true_eq] at h
  obtain ⟨⟨hptr, hvout⟩, hblind⟩ := h
  have hdata : (blindSealDisplay sl).data = (Method.display sl.method).data ++
      ':' :: (txPtrChars sl.txid ++ ':' :: (toDecDigits sl.vout ++
        '#' :: fmtBlindingChars sl.blinding)) := rfl
  have hm := method_display_ne_tilde sl.method
  have hsplit := splitSeps_four_fields (Method.display sl.method).data
    (txPtrChars sl.txid) (toDecDigits sl.vout) (fmtBlindingChars sl.blinding)
    ':' ':' '#' (method_display_no_sep sl.method) (txPtrChars_no_sep hptr)
    (toDecDigits_no_sep sl.vout) (fmtBlindingChars_no_sep sl.blinding)
    (by decide) (by decide) (by decide)
  have hlenmax : (List.replicate (8 - (toHexDigits sl.blinding).length) '0' ++
      toHexDigits sl.blinding).length =
      max 8 (toHexDigits sl.blinding).length := by
    rw [List.length_append, List.length_replicate]
    have h1 : (toHexDigits sl.blinding).length ≤ 16 :=
      toHexDigits_length_le16 hblind
    omega
  refine ⟨?_, mem_fmtBlindingPad sl.blinding, hlenmax, ?_, ?_⟩
  · rw [hdata, hsplit]
    rfl
  · rw [hlenmax]; omega
  · rw [hlenmax]
    have h1 : (toHexDigits sl.blinding).length ≤ 16 :=
      toHexDigits_length_le16 hblind
    omega

/-- C2 amended witness: the blinding field of the test seal. -/
theorem blinding_field_format_witness :
    (splitSeps (blindSealDisplay sealDeferredExample).data).get? 3 =
      some ('0' :: 'x' ::
        (List.replicate (8 - (toHexDigits sealDeferredExample.blinding).length)
          '0' ++ toHexDigits sealDeferredExample.blinding)) ∧
    (∀ c ∈ List.replicate
        (8 - (toHexDigits sealDeferredExample.blinding).length) '0' ++
        toHexDigits sealDeferredExample.blinding,
      ∃ d, d < 16 ∧ c = hexDigitChar d) ∧
    (List.replicate (8 - (toHexDigits sealDeferredExample.blinding).length)
        '0' ++ toHexDigits sealDeferredExample.blinding).length =
      max 8 (toHexDigits sealDeferredExample.blinding).length ∧
    8 ≤ (List.replicate
        (8 - (toHexDigits sealDeferredExample.blinding).length) '0' ++
        toHexDigits sealDeferredExample.blinding).length ∧
    (List.replicate (8 - (toHexDigits sealDeferredExample.blinding).length)
        '0' ++ toHexDigits sealDeferredExample.blinding).length ≤ 16 :=
  blinding_field_format sealDeferredExample (by decide)

/-- C3 counterexample: for input `tapret1st:rvgbdg:5#0xzz` the method is
recognized and the txid field is neither `~` nor valid, yet parsing fails
with `WrongBlinding`, not `WrongTxid` — the blinding field is evaluated
before the txid field. -/
theorem txid_error_priority_counterexample :
    method_from_str "tapret1st" = Except.ok Method.TapretFirst ∧
    txidFromChars "rvgbdg".data = none ∧
    "rvgbdg".data ≠ ['~'] ∧
    blindSealFromStr "tapret1st:rvgbdg:5#0xzz" =
      Except.error ParseError.WrongBlinding ∧
    blindSealFromStr "tapret1st:rvgbdg:5#0xzz" ≠
      Except.error ParseError.WrongTxid := by
  refine ⟨by decide, by decide, by decide, by decide, by decide⟩

/-- C3 amended: with the method recognized and the blinding field
well-formed (`0x`-prefixed valid hex in `u64` range), a txid field that is
neither `~` nor a valid 64-hex id makes parsing fail with `WrongTxid`
regardless of the vout field; the txid check precedes the vout check but
follows the method and blinding checks. -/
theorem wrong_txid_regardless_of_vout (m t v b : List Char)
    (hm : ∀ c ∈ m, isSealSep c = false) (ht : ∀ c ∈ t, isSealSep c = false)
    (hv : ∀ c ∈ v, isSealSep c = false) (hb : ∀ c ∈ b, isSealSep c = false)
    (hmne : m ≠ ['~'] ∧ m ≠ []) (htne : t ≠ ['~'] ∧ t ≠ [])
    (hmok : ∃ mm, method_from_str ⟨m⟩ = Except.ok mm)
    (htxid : txidFromChars t = none) (hb0x : startsWith0x b = true)
    (hblind : ∃ n, fromStrRadix16U64 (trimStart0x b) = some n) :
    blindSealFromStr ⟨m ++ ':' :: (t ++ ':' :: (v ++ '#' :: b))⟩ =
      Except.error ParseError.WrongTxid := by
  rw [blindSealFromStr]
  have hdata : (⟨m ++ ':' :: (t ++ ':' :: (v ++ '#' :: b))⟩ : String).data =
      m ++ ':' :: (t ++ ':' :: (v ++ '#' :: b)) := rfl
  rw [hdata, splitSeps_four_fields m t v b ':' ':' '#' hm ht hv hb
    (by decide) (by decide) (by decide)]
  simp only [parseFields, if_neg (not_or.mpr ⟨hmne.1, hmne.2⟩),
    if_neg htne.2, hb0x, Bool.true_eq_false, if_false, if_neg htne.1]
  obtain ⟨mm, hmm⟩ := hmok
  rw [hmm, exceptMapError_ok, exceptBind_ok]
  obtain ⟨n, hn⟩ := hblind
  rw [show parseBlindingField b = Except.ok n from by
    rw [parseBlindingField, hn], exceptBind_ok]
  rw [show parseTxidField t = Except.error ParseError.WrongTxid from by
    rw [parseTxidField, htxid]]
  rfl

/-- C3 amended witness: `tapret1st:rvgbdg:0x765#0x78ca69` — invalid txid
together with an invalid vout field still fails with `WrongTxid`. -/
theorem wrong_txid_regardless_of_vout_witness :
    blindSealFromStr ⟨"tapret1st".data ++ ':' :: ("rvgbdg".data ++
      ':' :: ("0x765".data ++ '#' :: "0x78ca69".data))⟩ =
      Except.error ParseError.WrongTxid :=
  wrong_txid_regardless_of_vout "tapret1st".data "rvgbdg".data "0x765".data
    "0x78ca69".data (by decide) (by decide) (by decide) (by decide)
    ⟨by decide, by decide⟩ ⟨by decide, by decide⟩
    ⟨Method.TapretFirst, by decide⟩ (by decide) (by decide)
    ⟨0x78ca69, by decide⟩

/-- C4: for every 32-byte commitment the tapret script builder outputs
exactly 30 `OP_RESERVED` bytes (0x50), then `OP_RETURN` (0x6a), then the
`OP_PUSHBYTES_32` length byte (0x20), then the 32 commitment bytes —
64 bytes in total, matching `TAPRET_SCRIPT_COMMITMENT_PREFIX`. -/
theorem tapret_commit_script (msg : MultiCommitment)
    (h : msg.bytes.length = 32) :
    tapScriptCommit msg = TAPRET_SCRIPT_COMMITMENT_PREFIX ++ msg.bytes ∧
    (tapScriptCommit msg).length = 64 := by
  have hfold : (List.range 30).foldl
      (fun b _ => builderPushOpcode b OP_RESERVED) ([] : List Nat) =
      List.replicate 30 (0x50 : Nat) := by decide
  have hpre : TAPRET_SCRIPT_COMMITMENT_PREFIX =
      List.replicate 30 (0x50 : Nat) ++ [0x6a, 0x20] := by decide
  have hmain : tapScriptCommit msg =
      TAPRET_SCRIPT_COMMITMENT_PREFIX ++ msg.bytes := by
    rw [tapScriptCommit]
    rw [hfold, builderPushSlice, MultiCommitment.commit_serialize, h]
    rw [if_pos (by norm_num)]
    rw [hpre, builderPushOpcode]
    simp [OP_RETURN]
  refine ⟨hmain, ?_⟩
  rw [hmain, List.length_append, h, hpre]
  simp

/-- C4 witness: the builder output at a concrete 32-byte commitment. -/
theorem tapret_commit_script_witness :
    tapScriptCommit ⟨List.replicate 32 7⟩ =
      TAPRET_SCRIPT_COMMITMENT_PREFIX ++ List.replicate 32 7 ∧
    (tapScriptCommit ⟨List.replicate 32 7⟩).length = 64 :=
  tapret_commit_script ⟨List.replicate 32 7⟩ (by decide)

/-- C5: converting a deferred-capable seal to an outpoint fails with the
witness-unresolved error exactly when the txid is deferred and yields
`Outpoint(T, V)` when the txid is explicit; the settled-seal conversion
always yields exactly `Outpoint(T, V)`. -/
theorem to_outpoint_spec (slp : BlindSeal TxPtr) (slt : BlindSeal Txid) :
    (outpointTryFromBlindSeal slp = Except.error ⟨⟩ ↔
      slp.txid = TxPtr.WitnessTx) ∧
    (∀ t, slp.txid = TxPtr.Txid t →
      outpointTryFromBlindSeal slp = Except.ok ⟨t, slp.vout⟩) ∧
    outpointFromBlindSealTxid slt = ⟨slt.txid, slt.vout⟩ := by
  refine ⟨?_, ?_, rfl⟩
  · cases htx : slp.txid with
    | WitnessTx => simp [outpointTryFromBlindSeal, TxPtr.map_to_outpoint, htx]
    | Txid t => simp [outpointTryFromBlindSeal, TxPtr.map_to_outpoint, htx]
  · intro t htx
    simp [outpointTryFromBlindSeal, TxPtr.map_to_outpoint, htx]

/-- C5 witness: the conversions at the example seals. -/
theorem to_outpoint_spec_witness :
    outpointTryFromBlindSeal sealDeferredExample = Except.error ⟨⟩ ∧
    outpointTryFromBlindSeal sealChainExample =
      Except.ok ⟨txidExample, 21⟩ ∧
    outpointFromBlindSealTxid sealSettledExample = ⟨txidExample, 21⟩ :=
  ⟨(to_outpoint_spec sealDeferredExample sealSettledExample).1.mpr rfl,
    (to_outpoint_spec sealChainExample sealSettledExample).2.1
      txidExample rfl,
    (to_outpoint_spec sealDeferredExample sealSettledExample).2.2⟩

/-- C6: method parsing succeeds exactly when the lowercased input equals
one of the two canonical strings, returning the matching method, and fails
on everything else with an error carrying the original input string. -/
theorem method_parse_exact_case_insensitive (s : String) :
    (rustToLowercase s = "opret1st" →
      method_from_str s = Except.ok Method.OpretFirst) ∧
    (rustToLowercase s = "tapret1st" →
      method_from_str s = Except.ok Method.TapretFirst) ∧
    (rustToLowercase s ≠ "opret1st" → rustToLowercase s ≠ "tapret1st" →
      method_from_str s = Except.error ⟨s⟩) ∧
    ((∃ mm, method_from_str s = Except.ok mm) ↔
      (rustToLowercase s = "opret1st" ∨ rustToLowercase s = "tapret1st")) := by
  by_cases h1 : rustToLowercase s = "opret1st"
  · refine ⟨fun _ => ?_, fun h2 => absurd (h1.symm.trans h2) (by decide),
      fun hn _ => absurd h1 hn, ?_⟩
    · simp [method_from_str, Method.display, h1]
    · simp [method_from_str, Method.display, h1]
  · by_cases h2 : rustToLowercase s = "tapret1st"
    · refine ⟨fun h1' => absurd (h1'.symm.trans h2).symm (by decide),
        fun _ => ?_, fun _ hn => absurd h2 hn, ?_⟩
      · simp [method_from_str, Method.display, h1, h2]
      · simp [method_from_str, Method.display, h1, h2]
    · refine ⟨fun h1' => absurd h1' h1, fun h2' => absurd h2' h2,
        fun _ _ => ?_, ?_⟩
      · simp [method_from_str, Method.display, h1, h2]
      · simp [method_from_str, Method.display, h1, h2]

/-- C6 witness: mixed-case canonical input succeeds; a prefix of the
canonical string fails carrying the offending text. -/
theorem method_parse_exact_case_insensitive_witness :
    method_from_str "TAPRET1ST" = Except.ok Method.TapretFirst ∧
    method_from_str "tapret" = Except.error ⟨"tapret"⟩ :=
  ⟨(method_parse_exact_case_insensitive "TAPRET1ST").2.1 (by decide),
    (method_parse_exact_case_insensitive "tapret").2.2.1
      (by decide) (by decide)⟩

/-- C7: whenever the first split field is empty or literally `~`, parsing
fails with `MethodRequired`; in particular both `":5#0x78ca"` and
`"~:5#0x78ca"` fail with `MethodRequired`. -/
theorem parse_method_required (s : String)
    (h : (splitSeps s.data).head? = some [] ∨
      (splitSeps s.data).head? = some ['~']) :
    blindSealFromStr s = Except.error ParseError.MethodRequired ∧
    blindSealFromStr ":5#0x78ca" = Except.error ParseError.MethodRequired ∧
    blindSealFromStr "~:5#0x78ca" = Except.error ParseError.MethodRequired := by
  refine ⟨?_, by decide, by decide⟩
  rw [blindSealFromStr]
  cases hfs : splitSeps s.data with
  | nil => exact absurd hfs (splitSeps_ne_nil s.data)
  | cons f1 rest =>
    rw [hfs] at h
    simp only [List.head?_cons, Option.some.injEq] at h
    simp only [parseFields]
    rw [if_pos h.symm]

/-- C7 witness: the theorem applied at `":5#0x78ca"`. -/
theorem parse_method_required_witness :
    blindSealFromStr ":5#0x78ca" = Except.error ParseError.MethodRequired ∧
    blindSealFromStr ":5#0x78ca" = Except.error ParseError.MethodRequired ∧
    blindSealFromStr "~:5#0x78ca" = Except.error ParseError.MethodRequired :=
  parse_method_required ":5#0x78ca" (by decide)

/-- C8: transmuting a settled seal to the deferred-capable representation
preserves the method, the explicit txid, the vout and the blinding factor. -/
theorem transmutate_preserves_fields (sl : BlindSeal Txid) :
    (sl.transmutate).method = sl.method ∧
    (sl.transmutate).txid = TxPtr.Txid sl.txid ∧
    (sl.transmutate).vout = sl.vout ∧
    (sl.transmutate).blinding = sl.blinding :=
  ⟨rfl, rfl, rfl, rfl⟩

/-- Unfolding of the settled-form parser as a bind. -/
theorem blindSealTxidFromStr_eq (s : String) :
    blindSealTxidFromStr s = blindSealFromStr s >>= fun sl =>
      match txPtrTxid sl.txid with
      | none => Except.error ParseError.TxidRequired
      | some t =>
        Except.ok (BlindSeal.with_blinding sl.method t sl.vout sl.blinding) :=
  rfl

/-- C10: the settled-form parser succeeds exactly on inputs whose
deferred-capable parse carries an explicit txid; a deferred seal string is
accepted by the deferred-capable parser but rejected by the settled-form
parser with `TxidRequired`. -/
theorem settled_parser_requires_explicit_txid (s : String) :
    ((∃ r, blindSealTxidFromStr s = Except.ok r) ↔
      (∃ sl t, blindSealFromStr s = Except.ok sl ∧
        sl.txid = TxPtr.Txid t)) ∧
    (∀ sl, blindSealFromStr s = Except.ok sl →
      sl.txid = TxPtr.WitnessTx →
      blindSealTxidFromStr s = Except.error ParseError.TxidRequired) ∧
    blindSealFromStr "tapret1st:~:21#0x31bbed7e7b2d" =
      Except.ok sealDeferredExample ∧
    blindSealTxidFromStr "tapret1st:~:21#0x31bbed7e7b2d" =
      Except.error ParseError.TxidRequired := by
  refine ⟨?_, ?_, by decide, by decide⟩
  · cases hps : blindSealFromStr s with
    | error e =>
      constructor
      · rintro ⟨r, hr⟩
        rw [blindSealTxidFromStr_eq, hps, exceptBind_error] at hr
        exact absurd hr (by simp)
      · rintro ⟨sl, t, hsl, _⟩
        exact absurd hsl (by simp)
    | ok sl =>
      cases htx : sl.txid with
      | WitnessTx =>
        have hfail : blindSealTxidFromStr s =
            Except.error ParseError.TxidRequired := by
          rw [blindSealTxidFromStr_eq, hps, exceptBind_ok, htx]
          rfl
        constructor
        · rintro ⟨r, hr⟩
          rw [hfail] at hr
          exact absurd hr (by simp)
        · rintro ⟨sl', t, hsl', htx'⟩
          have hsl'' : sl = sl' := by injection hsl'
          rw [← hsl'', htx] at htx'
          exact absurd htx' (by simp)
      | Txid t =>
        have hok : blindSealTxidFromStr s = Except.ok
            (BlindSeal.with_blinding sl.method t sl.vout sl.blinding) := by
          rw [blindSealTxidFromStr_eq, hps, exceptBind_ok, htx]
          rfl
        constructor
        · intro _
          exact ⟨sl, t, rfl, htx⟩
        · intro _
          exact ⟨_, hok⟩
  · intro sl hsl htx
    rw [blindSealTxidFromStr_eq, hsl, exceptBind_ok, htx]
    rfl

/-- C10 witness: the theorem applied to the deferred test string. -/
theorem settled_parser_requires_explicit_txid_witness :
    blindSealTxidFromStr "tapret1st:~:21#0x31bbed7e7b2d" =
      Except.error ParseError.TxidRequired :=
  (settled_parser_requires_explicit_txid
    "tapret1st:~:21#0x31bbed7e7b2d").2.1 sealDeferredExample
    (by decide) (by decide)
